import Mathlib


/-!
Shallow embedding of the `nn` variable-store package of the gotch repository
(`VarStore` / `Path` / `Entry`, file `example/mnist/nn.go`, package `nn`).

The external tensor library (`ts.Tensor`) is used by the package only through
the tensor-handle contract stated in the specification: shallow clone
(new handle, shared storage), in-place copy, gradient-tracking toggle and
size query.  It is modelled here by an explicit heap of storage blocks
(`World.storages`): a `Tensor` is a pair of a handle id and a storage id, a
shallow clone allocates a fresh handle id over the same storage id.

Go reference semantics are modelled explicitly:
* a Go `map` is a reference type, so `Variables.namedVariables` is an id into
  the heap `World.maps`; copying a `Variables` value copies the reference and
  both copies see the same map;
* a Go slice field (`Variables.trainableVariables`) is part of the struct
  value: copying the struct copies the slice header, and an `append` performed
  on the copy is invisible through the original;
* `log.Fatalf` terminates the process: it is modelled by the `Outcome.fatal`
  constructor, as opposed to an `error` return value which is modelled by
  `Except.error`.
-/

namespace Gotch

/-- Association-list lookup (model of Go map indexing). -/
def aget {α β : Type} [DecidableEq α] : List (α × β) → α → Option β
  | [], _ => none
  | (k', v) :: rest, k => if k = k' then some v else aget rest k

/-- Association-list insert-or-replace (model of Go map assignment):
replaces the binding if the key is present, otherwise appends it. -/
def aset {α β : Type} [DecidableEq α] : List (α × β) → α → β → List (α × β)
  | [], k, v => [(k, v)]
  | (k', v') :: rest, k, v =>
    if k = k' then (k, v) :: rest else (k', v') :: aset rest k v

/-- One storage block of the external tensor library: shape, element values
(held abstractly as integers; the registry never computes with them),
the gradient-tracking flag and the device the block lives on. -/
structure Storage where
  dims : List Int
  values : List Int
  requiresGrad : Bool
  device : Nat
deriving DecidableEq

/-- A tensor handle: a handle id plus the id of the storage block it
references.  Two handles with the same `storage` alias one block
("shallow clone" in the spec). -/
structure Tensor where
  handle : Nat
  storage : Nat
deriving DecidableEq

/-- The zero value of the Go type `ts.Tensor` (`var currTs ts.Tensor`).
Ids of real storage blocks start at 1, so storage 0 is never allocated. -/
def Tensor.nil : Tensor := ⟨0, 0⟩

/-- The mutable world: allocation counters, the tensor-storage heap, the heap
of Go maps (reference values), the global gradient mode (`ts.NoGrad` switches
it off for the duration of a callback) and a counter of in-place copies that
were executed while gradient mode was on (observable trace of "gradient
tracking during the copy"). -/
structure World where
  nextHandle : Nat
  nextStorage : Nat
  nextMap : Nat
  storages : List (Nat × Storage)
  maps : List (Nat × List (String × Tensor))
  gradMode : Bool
  trackedOps : Nat
deriving DecidableEq

/-- The initial world: no storages, no maps, gradient mode on. -/
def World.init : World := ⟨1, 1, 1, [], [], true, 0⟩

/-- Read a Go map out of the heap by its reference id. -/
def World.getMap (w : World) (r : Nat) : List (String × Tensor) :=
  (aget w.maps r).getD []

/-- Write a Go map back into the heap. -/
def World.setMap (w : World) (r : Nat) (m : List (String × Tensor)) : World :=
  { w with maps := aset w.maps r m }

/-- Modelled from the spec: allocating a fresh tensor (a fresh storage block
and a fresh handle) via the external tensor library. -/
def World.newTensor (w : World) (dims values : List Int) (requiresGrad : Bool)
    (device : Nat) : Tensor × World :=
  (⟨w.nextHandle, w.nextStorage⟩,
   { w with
     nextHandle := w.nextHandle + 1
     nextStorage := w.nextStorage + 1
     storages := aset w.storages w.nextStorage ⟨dims, values, requiresGrad, device⟩ })

/-- Modelled from the spec: `ts.Tensor.MustShallowClone` — a new handle over
the same storage block. -/
def Tensor.mustShallowClone (t : Tensor) (w : World) : Tensor × World :=
  (⟨w.nextHandle, t.storage⟩, { w with nextHandle := w.nextHandle + 1 })

/-- Modelled from the spec: `ts.Tensor.SetRequiresGrad` — toggles the
gradient-tracking flag of the tensor; the returned handle is the receiver.
The failure path (`GradientToggleFailure`) is not modelled. -/
def Tensor.setRequiresGrad (t : Tensor) (b : Bool) (w : World) : Tensor × World :=
  match aget w.storages t.storage with
  | some st => (t, { w with storages := aset w.storages t.storage { st with requiresGrad := b } })
  | none => (t, w)

/-- Modelled from the spec: `ts.Copy_ dst src` — in-place copy of the source
values into the destination's storage block.  When the global gradient mode
is on, the copy is recorded by the autograd machinery (`trackedOps`). -/
def Copy_ (dst src : Tensor) (w : World) : World :=
  let w := if w.gradMode then { w with trackedOps := w.trackedOps + 1 } else w
  match aget w.storages dst.storage, aget w.storages src.storage with
  | some d, some s => { w with storages := aset w.storages dst.storage { d with values := s.values } }
  | _, _ => w

/-- Modelled from the spec: `ts.NoGrad f` — runs `f` with gradient mode off
and restores the previous mode. -/
def NoGrad (f : World → World) (w : World) : World :=
  let w' := f { w with gradMode := false }
  { w' with gradMode := w.gradMode }

/-- Modelled from the spec: `ts.Tensor.To device` — returns the receiver when
it already lives on the target device, otherwise a fresh tensor holding the
same values on the target device.  The failure path is not modelled. -/
def Tensor.to (t : Tensor) (device : Nat) (w : World) : Tensor × World :=
  match aget w.storages t.storage with
  | some st =>
    if st.device = device then (t, w)
    else w.newTensor st.dims st.values st.requiresGrad device
  | none => (t, w)

/-- Number of elements described by a shape. -/
def numel (dims : List Int) : Nat := dims.foldl (fun a d => a * d.toNat) 1

/-- Modelled from the spec: `ts.Zeros dims dtype device`. -/
def tsZeros (dims : List Int) (device : Nat) (w : World) : Tensor × World :=
  w.newTensor dims (List.replicate (numel dims) 0) false device

/-- Initializer contract of the spec: a pure function from shape and device
to the initial element values (`nn.Init`). -/
def Init : Type := List Int → Nat → List Int

/-- `nn.NewConstInit c` (the float constant is modelled as an integer). -/
def NewConstInit (c : Int) : Init := fun dims _ => List.replicate (numel dims) c

/-- Modelled from the spec: `Init.InitTensor dims device` builds a fresh
(not yet gradient-tracked) tensor holding the initializer's values. -/
def Init.initTensor (ini : Init) (dims : List Int) (device : Nat) (w : World) :
    Tensor × World :=
  w.newTensor dims (ini dims device) false device

/-- `SEP` is a separator to separate path elements in the tensor names. -/
def SEP : String := "."

/-- `strings.Contains s SEP` for the one-character separator `"."`. -/
def containsSep (s : String) : Bool := s.data.any (fun c => c = '.')

/-- `strings.Join`: concatenates the list elements with the separator
between consecutive elements. -/
def stringsJoin : List String → String → String
  | [], _ => ""
  | [s], _ => s
  | s :: rest, sep => s ++ sep ++ stringsJoin rest sep

/-- `nn.Variables`: the name→tensor map (a Go map, hence a reference into
`World.maps`) and the ordered trainable slice (a value field). -/
structure Variables where
  namedVariables : Nat
  trainableVariables : List Tensor
deriving DecidableEq

/-- `nn.VarStore`: a device and one `Variables`. -/
structure VarStore where
  device : Nat
  vars : Variables
deriving DecidableEq

/-- `nn.Path`: a sequence of name segments (the var-store back-reference is
passed explicitly to every operation). -/
structure Path where
  path : List String
deriving DecidableEq

/-- `nn.Entry`: the (unqualified) name together with the path it was created
from; the `variables *Variables` field of the Go struct is the store's
`vars`, passed explicitly. -/
structure Entry where
  name : String
  path : Path
deriving DecidableEq

/-- Outcome of a Go function that may call `log.Fatalf`: `fatal` is process
termination (no value is returned to the caller), `ok` is a normal return. -/
inductive Outcome (α : Type) where
  | ok : α → Outcome α
  | fatal : String → Outcome α
deriving DecidableEq

/-- True iff the outcome is process termination. -/
def Outcome.isFatal {α : Type} : Outcome α → Bool
  | .ok _ => false
  | .fatal _ => true

/-- `nn.NewVarStore device`: empty map, empty trainable slice. -/
def NewVarStore (device : Nat) (w : World) : VarStore × World :=
  (⟨device, ⟨w.nextMap, []⟩⟩,
   { w with nextMap := w.nextMap + 1, maps := aset w.maps w.nextMap [] })

/-- `VarStore.Len`: the number of tensors currently stored. -/
def VarStore.Len (vs : VarStore) (w : World) : Nat :=
  (w.getMap vs.vars.namedVariables).length

/-- `VarStore.IsEmpty`. -/
def VarStore.IsEmpty (vs : VarStore) (w : World) : Bool :=
  (w.getMap vs.vars.namedVariables).length = 0

/-- The loop of `VarStore.TrainableVariables`: `retVal` starts as `acc` and
one shallow clone per element of `l` is appended to it. -/
def cloneAppend : List Tensor → List Tensor → World → List Tensor × World
  | [], acc, w => (acc, w)
  | t :: rest, acc, w =>
    let (c, w) := t.mustShallowClone w
    cloneAppend rest (acc ++ [c]) w

/-- `VarStore.TrainableVariables`: the source initializes the result with the
live slice `vs.Vars.TrainableVariables` itself and then appends one shallow
clone per trainable tensor. -/
def VarStore.TrainableVariables (vs : VarStore) (w : World) : List Tensor × World :=
  cloneAppend vs.vars.trainableVariables vs.vars.trainableVariables w

/-- The loop of `VarStore.Variables`: a fresh map binding every stored name
to a shallow clone of its tensor. -/
def cloneMap : List (String × Tensor) → World → List (String × Tensor) × World
  | [], w => ([], w)
  | (k, t) :: rest, w =>
    let (c, w) := t.mustShallowClone w
    let (m, w) := cloneMap rest w
    ((k, c) :: m, w)

/-- `VarStore.Variables`: all variables and their names, as clones. -/
def VarStore.Variables (vs : VarStore) (w : World) : List (String × Tensor) × World :=
  cloneMap (w.getMap vs.vars.namedVariables) w

/-- `VarStore.Root`: the empty path. -/
def VarStore.Root (_ : VarStore) : Path := ⟨[]⟩

/-- Modelled from the spec: `ts.LoadMultiWithDevice` — the external
deserializer, returning one freshly allocated tensor per (name, values) pair
of the file, on the given device. -/
def LoadMultiWithDevice : List (String × List Int) → Nat → World →
    List (String × Tensor) × World
  | [], _, w => ([], w)
  | (name, vals) :: rest, device, w =>
    let (t, w) := w.newTensor [Int.ofNat vals.length] vals false device
    let (nts, w) := LoadMultiWithDevice rest device w
    ((name, t) :: nts, w)

/-- The loop of `VarStore.Load`: for each loaded pair, look the name up in
the store's map; if absent return the "Cannot find tensor" error, otherwise
copy the loaded values in place under `ts.NoGrad`. -/
def loadLoop : List (String × Tensor) → List (String × Tensor) → World →
    Except String Unit × World
  | [], _, w => (.ok (), w)
  | (name, t) :: rest, m, w =>
    match aget m name with
    | none =>
      (.error ("Cannot find tensor with name: " ++ name ++ " in variable store. "), w)
    | some currTs => loadLoop rest m (NoGrad (fun w => Copy_ currTs t w) w)

/-- `VarStore.Load`: deserialize, then match-and-copy; the world (the
caller's heap) survives also when an error is returned. -/
def VarStore.Load (vs : VarStore) (file : List (String × List Int)) (w : World) :
    Except String Unit × World :=
  let (namedTensors, w) := LoadMultiWithDevice file vs.device w
  loadLoop namedTensors (w.getMap vs.vars.namedVariables) w

/-- The loop of `VarStore.LoadPartial`: when the loaded name is absent from
the store it is appended to the missing list and `currTs` keeps the zero
value of `ts.Tensor` — the source has no `continue`, so the in-place copy
under `ts.NoGrad` is executed in both cases. -/
def loadPartialLoop : List (String × Tensor) → List (String × Tensor) →
    List String → World → List String × World
  | [], _, missing, w => (missing, w)
  | (name, t) :: rest, m, missing, w =>
    let (currTs, missing) :=
      match aget m name with
      | none => (Tensor.nil, missing ++ [name])
      | some currTs => (currTs, missing)
    loadPartialLoop rest m missing (NoGrad (fun w => Copy_ currTs t w) w)

/-- `VarStore.LoadPartial`: returns the missing-name list it collected. -/
def VarStore.LoadPartial (vs : VarStore) (file : List (String × List Int))
    (w : World) : List String × World :=
  let (namedTensors, w) := LoadMultiWithDevice file vs.device w
  loadPartialLoop namedTensors (w.getMap vs.vars.namedVariables) [] w

/-- The first loop of `VarStore.Copy`: scan the destination's names and
return the first one absent from the source map, if any. -/
def copyValidate : List (String × Tensor) → List (String × Tensor) → Option String
  | [], _ => none
  | (k, _) :: rest, srcMap =>
    if (aget srcMap k).isSome then copyValidate rest srcMap else some k

/-- The second loop of `VarStore.Copy`: for each destination binding, move
the identically named source tensor to the destination device and copy its
values in place under `ts.NoGrad`.  (`srcTs, _ := srcNamedVariables[k]`
yields the zero value when absent — unreachable after validation.) -/
def copyLoop : List (String × Tensor) → List (String × Tensor) → Nat → World → World
  | [], _, _, w => w
  | (k, v) :: rest, srcMap, device, w =>
    let srcTs := (aget srcMap k).getD Tensor.nil
    let (srcDevTs, w) := srcTs.to device w
    copyLoop rest srcMap device (NoGrad (fun w => Copy_ v srcDevTs w) w)

/-- `VarStore.Copy src`: validate that every destination name exists in the
source map; on the first missing name return the error with the world
untouched, otherwise run the copy loop. -/
def VarStore.Copy (vs : VarStore) (src : VarStore) (w : World) :
    Except String Unit × World :=
  let srcMap := w.getMap src.vars.namedVariables
  let dstMap := w.getMap vs.vars.namedVariables
  match copyValidate dstMap srcMap with
  | some k =>
    (.error ("VarStore copy error: cannot find " ++ k ++ " in the source var store. "), w)
  | none => (.ok (), copyLoop dstMap srcMap vs.device w)

/-- `Path.Sub str`: appends a segment; `log.Fatalf` when the segment
contains the separator. -/
def Path.Sub (p : Path) (str : String) : Outcome Path :=
  if containsSep str then
    .fatal ("Sub name cannot contain " ++ SEP ++ " (" ++ str ++ ")")
  else
    .ok ⟨p.path ++ [str]⟩

/-- `Path.getpath name`: `log.Fatalf` when the name contains the separator;
the root path qualifies the name to itself, otherwise the segments and the
name are joined with the separator. -/
def Path.getpath (p : Path) (name : String) : Outcome String :=
  if containsSep name then
    .fatal ("Sub name cannot contain " ++ SEP ++ " (" ++ name ++ ")")
  else if p.path = [] then
    .ok name
  else
    .ok (stringsJoin p.path SEP ++ SEP ++ name)

/-- `Path.add name newTs trainable`: qualify the name; if the qualified name
is already bound, disambiguate it by appending two underscores and the
current map size; shallow-clone the input (with gradient tracking enabled
when trainable), append the clone to the store's trainable slice when
trainable, and bind it in the map. -/
def Path.add (p : Path) (name : String) (newTs : Tensor) (trainable : Bool)
    (vs : VarStore) (w : World) : Outcome (Tensor × VarStore × World) :=
  match p.getpath name with
  | .fatal msg => .fatal msg
  | .ok path0 =>
    let m := w.getMap vs.vars.namedVariables
    let path := if (aget m path0).isSome then path0 ++ "__" ++ toString m.length else path0
    let (c, w) := newTs.mustShallowClone w
    let (tensor, w) := if trainable then c.setRequiresGrad true w else (c, w)
    let vs :=
      if trainable then
        { vs with vars := { vs.vars with
            trainableVariables := vs.vars.trainableVariables ++ [tensor] } }
      else vs
    let w := w.setMap vs.vars.namedVariables (aset m path tensor)
    .ok (tensor, vs, w)

/-- The lookup half of `Path.getOrAddWithLock` (the source acquires no lock
in this function; `Path.Entry` locks the mutex but its deferred unlock runs
before the entry is used): qualify the name and look it up in the map of the
`Variables` value that was passed in. -/
def getOrAddLookup (p : Path) (name : String) (vars : Variables) (w : World) :
    Outcome (Option Tensor) :=
  match p.getpath name with
  | .fatal msg => .fatal msg
  | .ok path => .ok (aget (w.getMap vars.namedVariables) path)

/-- The insert half of `Path.getOrAddWithLock`: enable gradient tracking when
trainable, append to the trainable slice of the local `variables` copy (the
Go parameter is passed by value, so this append never reaches the store) and
bind the tensor in the shared map. -/
def getOrAddInsert (p : Path) (name : String) (tensor : Tensor) (trainable : Bool)
    (vars : Variables) (w : World) : Outcome (Tensor × World) :=
  match p.getpath name with
  | .fatal msg => .fatal msg
  | .ok path =>
    let (ttensor, w) := if trainable then tensor.setRequiresGrad true w else (tensor, w)
    let vars :=
      if trainable then
        { vars with trainableVariables := vars.trainableVariables ++ [ttensor] }
      else vars
    let w := w.setMap vars.namedVariables
      (aset (w.getMap vars.namedVariables) path ttensor)
    .ok (ttensor, w)

/-- `Path.getOrAddWithLock name tensor trainable variables`: if the qualified
name is bound, return the stored tensor; otherwise insert.  The function body
contains no lock acquisition, so the two halves are separately atomic at
best. -/
def Path.getOrAddWithLock (p : Path) (name : String) (tensor : Tensor)
    (trainable : Bool) (vars : Variables) (w : World) : Outcome (Tensor × World) :=
  match getOrAddLookup p name vars w with
  | .fatal msg => .fatal msg
  | .ok (some v) => .ok (v, w)
  | .ok none => getOrAddInsert p name tensor trainable vars w

/-- `Path.NewVar name dims ini`: build the initial value and `add` it as
trainable. -/
def Path.NewVar (p : Path) (name : String) (dims : List Int) (ini : Init)
    (vs : VarStore) (w : World) : Outcome (Tensor × VarStore × World) :=
  let (v, w) := ini.initTensor dims vs.device w
  p.add name v true vs w

/-- `Path.Zeros`. -/
def Path.Zeros (p : Path) (name : String) (dims : List Int) (vs : VarStore)
    (w : World) : Outcome (Tensor × VarStore × World) :=
  p.NewVar name dims (NewConstInit 0) vs w

/-- `Path.Ones`. -/
def Path.Ones (p : Path) (name : String) (dims : List Int) (vs : VarStore)
    (w : World) : Outcome (Tensor × VarStore × World) :=
  p.NewVar name dims (NewConstInit 1) vs w

/-- `Path.ZerosNoTrain`. -/
def Path.ZerosNoTrain (p : Path) (name : String) (dims : List Int) (vs : VarStore)
    (w : World) : Outcome (Tensor × VarStore × World) :=
  let (z, w) := tsZeros dims vs.device w
  p.add name z false vs w

/-- `Path.Entry name`: binds the (unqualified) name and the path; the
`variables` pointer of the Go struct is the store's `Vars`. -/
def Path.Entry (p : Path) (name : String) : Entry := ⟨name, p⟩

/-- `Entry.OrVar dims init`: build the initial value and delegate to
`getOrAddWithLock` with `trainable = true`, passing the store's `Variables`
by value (`*e.variables`). -/
def Entry.OrVar (e : Entry) (dims : List Int) (ini : Init) (vs : VarStore)
    (w : World) : Outcome (Tensor × World) :=
  let (v, w) := ini.initTensor dims vs.device w
  e.path.getOrAddWithLock e.name v true vs.vars w

/-- `Entry.OrZeros`. -/
def Entry.OrZeros (e : Entry) (dims : List Int) (vs : VarStore) (w : World) :
    Outcome (Tensor × World) :=
  e.OrVar dims (NewConstInit 0) vs w

/-- `Entry.OrOnes`. -/
def Entry.OrOnes (e : Entry) (dims : List Int) (vs : VarStore) (w : World) :
    Outcome (Tensor × World) :=
  e.OrVar dims (NewConstInit 1) vs w

/-- The storage block referenced by a tensor handle. -/
def storageAt (w : World) (t : Tensor) : Option Storage := aget w.storages t.storage

/-- The values held by the storage block a tensor references. -/
def valuesAt (w : World) (t : Tensor) : Option (List Int) :=
  (storageAt w t).map Storage.values

/-- The gradient-tracking flag of the storage block a tensor references. -/
def gradAt (w : World) (t : Tensor) : Option Bool :=
  (storageAt w t).map Storage.requiresGrad

/-- The store and world inside an `ok` outcome of a creation call. -/
def outState : Outcome (Tensor × VarStore × World) → VarStore × World
  | .ok (_, vs, w) => (vs, w)
  | .fatal _ => (⟨0, ⟨0, []⟩⟩, World.init)

/-- The tensor inside an `ok` outcome of a creation call. -/
def outTensor : Outcome (Tensor × VarStore × World) → Tensor
  | .ok (t, _, _) => t
  | .fatal _ => Tensor.nil

/-- Concrete state for C8: a fresh store on device 0. -/
def c8start : VarStore × World := NewVarStore 0 World.init

/-- State after the first unconditional `Zeros "w"` at the root. -/
def c8mid : VarStore × World :=
  outState (Path.Zeros ⟨[]⟩ "w" [1] c8start.1 c8start.2)

/-- State after the second unconditional `Zeros "w"` (same qualified name). -/
def c8end : VarStore × World :=
  outState (Path.Zeros ⟨[]⟩ "w" [1] c8mid.1 c8mid.2)

/-- The registry map after the two inserts of C8. -/
def c8map : List (String × Tensor) :=
  c8end.2.getMap c8end.1.vars.namedVariables

/-- Concrete state for C1: a fresh store. -/
def c1vsw : VarStore × World := NewVarStore 0 World.init

/-- The entry `"w"` obtained from the root path (both concurrent callers
hold this entry). -/
def c1entry : Entry := Path.Entry ⟨[]⟩ "w"

/-- Caller 1's initial-value allocation (`OrZeros` builds it before calling
`getOrAddWithLock`). -/
def c1alloc1 : Tensor × World := Init.initTensor (NewConstInit 0) [4] c1vsw.1.device c1vsw.2

/-- Caller 2's initial-value allocation. -/
def c1alloc2 : Tensor × World := Init.initTensor (NewConstInit 0) [4] c1vsw.1.device c1alloc1.2

/-- The world in which both callers execute the lookup half of
`getOrAddWithLock`. -/
def c1w : World := c1alloc2.2

/-- Caller 1's insert half. -/
def c1ins1 : Outcome (Tensor × World) :=
  getOrAddInsert c1entry.path c1entry.name c1alloc1.1 true c1vsw.1.vars c1w

/-- The tensor caller 1 receives. -/
def c1t1 : Tensor := match c1ins1 with | .ok (t, _) => t | .fatal _ => Tensor.nil

/-- The world after caller 1's insert. -/
def c1w1 : World := match c1ins1 with | .ok (_, w) => w | .fatal _ => World.init

/-- Caller 2's insert half, running after caller 1's. -/
def c1ins2 : Outcome (Tensor × World) :=
  getOrAddInsert c1entry.path c1entry.name c1alloc2.1 true c1vsw.1.vars c1w1

/-- The tensor caller 2 receives. -/
def c1t2 : Tensor := match c1ins2 with | .ok (t, _) => t | .fatal _ => Tensor.nil

/-- The final world of the interleaving. -/
def c1w2 : World := match c1ins2 with | .ok (_, w) => w | .fatal _ => World.init

/-- Concrete state for C3: a fresh store. -/
def c3vsw : VarStore × World := NewVarStore 0 World.init

/-- `entry("w").or_zeros([1])` on the fresh store. -/
def c3res : Outcome (Tensor × World) :=
  ((⟨[]⟩ : Path).Entry "w").OrZeros [1] c3vsw.1 c3vsw.2

/-- The tensor the entry call returns. -/
def c3t : Tensor := match c3res with | .ok (t, _) => t | .fatal _ => Tensor.nil

/-- The world after the entry call. -/
def c3w : World := match c3res with | .ok (_, w) => w | .fatal _ => World.init

/-- For contrast: the same creation routed through the unconditional insert
`Path.add` (via `Path.Zeros`). -/
def c3addState : VarStore × World := outState (Path.Zeros ⟨[]⟩ "w" [1] c3vsw.1 c3vsw.2)

/-- Concrete state for C4: a fresh store. -/
def c4vsw : VarStore × World := NewVarStore 0 World.init

/-- The store and world after creating one trainable variable `"w"`. -/
def c4state : VarStore × World := outState (Path.Zeros ⟨[]⟩ "w" [1] c4vsw.1 c4vsw.2)

/-- The canonical handle stored in the registry for `"w"`. -/
def c4t : Tensor := outTensor (Path.Zeros ⟨[]⟩ "w" [1] c4vsw.1 c4vsw.2)

/-- The sequence returned by `TrainableVariables()`. -/
def c4snap : List Tensor := (c4state.1.TrainableVariables c4state.2).1

/-- The second element of that sequence. -/
def c4clone : Tensor := c4snap.getD 1 Tensor.nil

/-- The map returned by `Variables()`. -/
def c4varsnap : List (String × Tensor) := (c4state.1.Variables c4state.2).1

/-- The handle `Variables()` returns for `"w"`. -/
def c4vclone : Tensor := (aget c4varsnap "w").getD Tensor.nil

/-- Concrete state for C5: a fresh store. -/
def c5vsw : VarStore × World := NewVarStore 0 World.init

/-- Store with variable `"a"` (values `[0]`). -/
def c5sa : VarStore × World := outState (Path.Zeros ⟨[]⟩ "a" [1] c5vsw.1 c5vsw.2)

/-- Store with variables `"a"` (values `[0]`) and `"b"` (values `[1]`). -/
def c5sb : VarStore × World := outState (Path.Ones ⟨[]⟩ "b" [1] c5sa.1 c5sa.2)

/-- The registry handle of `"a"`. -/
def c5ta : Tensor := (aget (c5sb.2.getMap c5sb.1.vars.namedVariables) "a").getD Tensor.nil

/-- The registry handle of `"b"`. -/
def c5tb : Tensor := (aget (c5sb.2.getMap c5sb.1.vars.namedVariables) "b").getD Tensor.nil

/-- `LoadPartial` on a file holding only `"a"` (a strict subset of the
registry names `{"a", "b"}`). -/
def c5res : List String × World := c5sb.1.LoadPartial [("a", [5])] c5sb.2

/-- The storage ids the `Load` loop may write to: the registry targets of
the loaded names. -/
def loadTargets (l m : List (String × Tensor)) : List Nat :=
  l.filterMap (fun p => (aget m p.1).map Tensor.storage)

/-- The concrete file for the C7 witness. -/
def c7file : List (String × List Int) := [("a", [7]), ("b", [9])]

/-- Destination store for the C6 witness: a fresh store on device 0. -/
def c6d0 : VarStore × World := NewVarStore 0 World.init

/-- Destination store holding `"a" ↦ [0]`. -/
def c6d1 : VarStore × World := outState (Path.Zeros ⟨[]⟩ "a" [1] c6d0.1 c6d0.2)

/-- Source store created in the same world. -/
def c6s0 : VarStore × World := NewVarStore 0 c6d1.2

/-- Source store holding `"a" ↦ [1]`; `c6s1.2` is the world shared by both
stores. -/
def c6s1 : VarStore × World := outState (Path.Ones ⟨[]⟩ "a" [1] c6s0.1 c6s0.2)

/-- Lookup after insert-or-replace at the same key. -/
theorem aget_aset_self {α β : Type} [DecidableEq α] (l : List (α × β)) (k : α) (v : β) :
    aget (aset l k v) k = some v := by
  induction l with
  | nil => simp [aget, aset]
  | cons p rest ih =>
    by_cases h : k = p.1
    · simp [aget, aset, h]
    · simp [aget, aset, h, ih]

/-- Lookup after insert-or-replace at a different key. -/
theorem aget_aset_ne {α β : Type} [DecidableEq α] (l : List (α × β)) (k k' : α) (v : β)
    (h : k' ≠ k) : aget (aset l k v) k' = aget l k' := by
  induction l with
  | nil => simp [aget, aset, h]
  | cons p rest ih =>
    by_cases h1 : k = p.1
    · subst h1
      simp [aget, aset, h]
    · by_cases h2 : k' = p.1 <;> simp [aget, aset, h1, h2, ih]

/-- A successful lookup comes from a binding in the list. -/
theorem aget_mem {α β : Type} [DecidableEq α] (l : List (α × β)) (k : α) (v : β)
    (h : aget l k = some v) : (k, v) ∈ l := by
  induction l with
  | nil => simp [aget] at h
  | cons p rest ih =>
    by_cases h1 : k = p.1
    · subst h1
      simp [aget] at h
      subst h
      exact List.mem_cons_self _ _
    · simp [aget, h1] at h
      exact List.mem_cons_of_mem _ (ih h)

/-- Insert-or-replace of an absent key appends the binding. -/
theorem aset_absent {α β : Type} [DecidableEq α] (l : List (α × β)) (k : α) (v : β)
    (h : aget l k = none) : aset l k v = l ++ [(k, v)] := by
  induction l with
  | nil => simp [aset]
  | cons p rest ih =>
    by_cases h1 : k = p.1
    · simp [aget, h1] at h
    · simp [aget, h1] at h
      simp [aset, h1, ih h]

/-- Allocating a tensor does not change any Go map. -/
theorem getMap_newTensor (w : World) (d v : List Int) (g : Bool) (dev r : Nat) :
    ((w.newTensor d v g dev).2).getMap r = w.getMap r := rfl

/-- Toggling gradient tracking does not change any Go map. -/
theorem getMap_setRequiresGrad (t : Tensor) (b : Bool) (w : World) (r : Nat) :
    ((t.setRequiresGrad b w).2).getMap r = w.getMap r := by
  unfold Tensor.setRequiresGrad
  cases aget w.storages t.storage <;> rfl

/-- `setRequiresGrad` returns the receiver handle. -/
theorem fst_setRequiresGrad (t : Tensor) (b : Bool) (w : World) :
    (t.setRequiresGrad b w).1 = t := by
  unfold Tensor.setRequiresGrad
  cases aget w.storages t.storage <;> rfl

/-- Reading back the map that was just written. -/
theorem getMap_setMap_self (w : World) (r : Nat) (m : List (String × Tensor)) :
    (w.setMap r m).getMap r = m := by
  simp [World.getMap, World.setMap, aget_aset_self]

end Gotch

namespace Gotch

/-- C10 counterexample: calling `Sub` (or name qualification) with an
argument containing the separator does not return a typed error value to the
caller — the call is fatal (`log.Fatalf`, process termination), refuting the
claim at the concrete segment `"a.b"`. -/
theorem sub_sep_counterexample :
    (Path.Sub ⟨[]⟩ "a.b").isFatal = true ∧ (Path.getpath ⟨[]⟩ "a.b").isFatal = true := by
  decide

/-- C10 (amended): for every call to `Sub` or to name qualification whose
argument contains the reserved separator, the call terminates the process
via `log.Fatalf` (modelled by the `fatal` outcome, so no value is returned
to the caller and no registry state is produced or mutated). -/
theorem sub_sep_fatal (p : Path) (str : String) (h : containsSep str = true) :
    Path.Sub p str = .fatal ("Sub name cannot contain " ++ SEP ++ " (" ++ str ++ ")") ∧
    Path.getpath p str = .fatal ("Sub name cannot contain " ++ SEP ++ " (" ++ str ++ ")") := by
  constructor <;> simp [Path.Sub, Path.getpath, h]

/-- Witness for the amended C10 at the concrete segment `"a.b"`. -/
theorem sub_sep_fatal_witness :
    containsSep "a.b" = true ∧
    (Path.Sub ⟨[]⟩ "a.b" = .fatal ("Sub name cannot contain " ++ SEP ++ " (" ++ "a.b" ++ ")") ∧
     Path.getpath ⟨[]⟩ "a.b" = .fatal ("Sub name cannot contain " ++ SEP ++ " (" ++ "a.b" ++ ")")) :=
  ⟨by decide, sub_sep_fatal ⟨[]⟩ "a.b" (by decide)⟩

/-- C9: for separator-free segments and name, qualification joins the
segments and the name with the separator — `sub s1` then `sub s2` then
`getpath n` yields `s1 ++ "." ++ s2 ++ "." ++ n` from the root scope, and the
root scope qualifies a name to itself unchanged. -/
theorem qualify_joins (s1 s2 n : String) (h1 : containsSep s1 = false)
    (h2 : containsSep s2 = false) (h3 : containsSep n = false) :
    (∃ p1 p2, Path.Sub ⟨[]⟩ s1 = .ok p1 ∧ p1.Sub s2 = .ok p2 ∧
       p2.getpath n = .ok (s1 ++ SEP ++ s2 ++ SEP ++ n)) ∧
    Path.getpath ⟨[]⟩ n = .ok n := by
  refine ⟨⟨⟨[s1]⟩, ⟨[s1, s2]⟩, ?_, ?_, ?_⟩, ?_⟩
  · simp [Path.Sub, h1]
  · simp [Path.Sub, h2]
  · simp [Path.getpath, h3, stringsJoin]
  · simp [Path.getpath, h3]

/-- Witness for C9 at the concrete segments `"a"`, `"b"` and name `"c"`. -/
theorem qualify_joins_witness :
    containsSep "a" = false ∧ containsSep "b" = false ∧ containsSep "c" = false ∧
    ((∃ p1 p2, Path.Sub ⟨[]⟩ "a" = .ok p1 ∧ p1.Sub "b" = .ok p2 ∧
       p2.getpath "c" = .ok ("a" ++ SEP ++ "b" ++ SEP ++ "c")) ∧
     Path.getpath ⟨[]⟩ "c" = .ok "c") :=
  ⟨by decide, by decide, by decide, qualify_joins "a" "b" "c" (by decide) (by decide) (by decide)⟩

/-- C8 counterexample: inserting the name `"w"` twice does not bind the
second tensor under `"w" ++ SEP ++ "1"` (the separator plus the registry
size) as the claim states; the disambiguated key is `"w__1"` (two
underscores plus the registry size). -/
theorem add_disambiguation_counterexample :
    aget c8map ("w" ++ SEP ++ "1") = none ∧
    (aget c8map ("w" ++ "__" ++ "1")).isSome = true ∧
    c8map.length = 2 := by
  decide

/-- C8 (amended): when the qualified name is already bound and the
disambiguated key (the name, two underscores and the current registry size)
is not itself bound, `Path.add` keeps the existing binding untouched,
appends the new binding under the disambiguated key and grows the registry
by exactly one. -/
theorem add_disambiguates (p : Path) (name : String) (t0 : Tensor) (trainable : Bool)
    (vs : VarStore) (w : World) (q : String)
    (hq : p.getpath name = .ok q)
    (hpresent : (aget (w.getMap vs.vars.namedVariables) q).isSome = true)
    (habsent : aget (w.getMap vs.vars.namedVariables)
      (q ++ "__" ++ toString (w.getMap vs.vars.namedVariables).length) = none) :
    ∃ t vs' w', p.add name t0 trainable vs w = .ok (t, vs', w') ∧
      w'.getMap vs'.vars.namedVariables =
        w.getMap vs.vars.namedVariables ++
          [(q ++ "__" ++ toString (w.getMap vs.vars.namedVariables).length, t)] ∧
      vs'.Len w' = vs.Len w + 1 ∧
      aget (w'.getMap vs'.vars.namedVariables) q = aget (w.getMap vs.vars.namedVariables) q := by
  have hne : q ≠ q ++ "__" ++ toString (w.getMap vs.vars.namedVariables).length := by
    intro he
    rw [← he] at habsent
    rw [habsent] at hpresent
    simp [Option.isSome] at hpresent
  unfold Path.add
  rw [hq]
  simp only [hpresent, if_true]
  cases trainable <;>
  · refine ⟨_, _, _, rfl, ?_, ?_, ?_⟩
    · rw [getMap_setMap_self]
      rw [aset_absent _ _ _ habsent]
    · unfold VarStore.Len
      rw [getMap_setMap_self, aset_absent _ _ _ habsent]
      simp
    · rw [getMap_setMap_self]
      rw [aget_aset_ne _ _ _ _ hne]

/-- Witness for the amended C8: a store holding one binding of `"w"`, where
the second `add` of `"w"` lands under `"w__1"`. -/
theorem add_disambiguates_witness :
    Path.getpath ⟨[]⟩ "w" = .ok "w" ∧
    (aget (c8mid.2.getMap c8mid.1.vars.namedVariables) "w").isSome = true ∧
    aget (c8mid.2.getMap c8mid.1.vars.namedVariables)
      ("w" ++ "__" ++ toString (c8mid.2.getMap c8mid.1.vars.namedVariables).length) = none ∧
    (∃ t vs' w', Path.add ⟨[]⟩ "w" Tensor.nil true c8mid.1 c8mid.2 = .ok (t, vs', w') ∧
      w'.getMap vs'.vars.namedVariables =
        c8mid.2.getMap c8mid.1.vars.namedVariables ++
          [("w" ++ "__" ++ toString (c8mid.2.getMap c8mid.1.vars.namedVariables).length, t)] ∧
      vs'.Len w' = c8mid.1.Len c8mid.2 + 1 ∧
      aget (w'.getMap vs'.vars.namedVariables) "w" =
        aget (c8mid.2.getMap c8mid.1.vars.namedVariables) "w") :=
  ⟨by decide, by decide, by decide,
   add_disambiguates ⟨[]⟩ "w" Tensor.nil true c8mid.1 c8mid.2 "w"
     (by decide) (by decide) (by decide)⟩

/-- `getOrAddWithLock` when the qualified name is bound: the stored tensor is
returned and the world is untouched. -/
theorem getOrAdd_found (p : Path) (name : String) (t : Tensor) (trainable : Bool)
    (vars : Variables) (w : World) (q : String) (v : Tensor)
    (hq : p.getpath name = .ok q)
    (hv : aget (w.getMap vars.namedVariables) q = some v) :
    p.getOrAddWithLock name t trainable vars w = .ok (v, w) := by
  have h1 : getOrAddLookup p name vars w = .ok (some v) := by
    unfold getOrAddLookup
    rw [hq]
    exact congrArg Outcome.ok hv
  unfold Path.getOrAddWithLock
  rw [h1]

/-- `getOrAddWithLock` when the qualified name is absent and the variable is
trainable: the input handle (now gradient-tracked) is returned and bound in
the shared map; the append to the trainable slice happens on the by-value
`Variables` copy and does not escape. -/
theorem getOrAdd_absent (p : Path) (name : String) (t : Tensor)
    (vars : Variables) (w : World) (q : String)
    (hq : p.getpath name = .ok q)
    (hmiss : aget (w.getMap vars.namedVariables) q = none) :
    ∃ w', p.getOrAddWithLock name t true vars w = .ok (t, w') ∧
      w'.getMap vars.namedVariables = aset (w.getMap vars.namedVariables) q t := by
  have h1 : getOrAddLookup p name vars w = .ok none := by
    unfold getOrAddLookup
    rw [hq]
    exact congrArg Outcome.ok hmiss
  have h2 : p.getOrAddWithLock name t true vars w = getOrAddInsert p name t true vars w := by
    unfold Path.getOrAddWithLock
    rw [h1]
  have h3 : getOrAddInsert p name t true vars w =
      Outcome.ok ((t.setRequiresGrad true w).1,
        ((t.setRequiresGrad true w).2).setMap vars.namedVariables
          (aset (((t.setRequiresGrad true w).2).getMap vars.namedVariables) q
            (t.setRequiresGrad true w).1)) := by
    unfold getOrAddInsert
    rw [hq]
    rfl
  rw [h2, h3, fst_setRequiresGrad]
  refine ⟨_, rfl, ?_⟩
  rw [getMap_setMap_self, getMap_setRequiresGrad]

/-- C2: an entry's get-or-create called twice in sequence (no concurrency)
returns the same variable both times — the very same handle — and the second
call leaves the registry's variable count (`VarStore.Len`) unchanged.  This
covers `OrZeros` and every other `or_*` wrapper, which all delegate to
`OrVar`. -/
theorem entry_get_or_create_idempotent (e : Entry) (dims : List Int) (ini : Init)
    (vs : VarStore) (w : World) (h : containsSep e.name = false) :
    ∃ t1 w1 t2 w2,
      e.OrVar dims ini vs w = .ok (t1, w1) ∧
      e.OrVar dims ini vs w1 = .ok (t2, w2) ∧
      t2 = t1 ∧ vs.Len w2 = vs.Len w1 := by
  obtain ⟨q, hq⟩ : ∃ q, e.path.getpath e.name = .ok q := by
    unfold Path.getpath
    rw [h]
    by_cases hp : e.path.path = [] <;> simp [hp]
  have horvar : ∀ (w0 : World), e.OrVar dims ini vs w0 =
      e.path.getOrAddWithLock e.name (ini.initTensor dims vs.device w0).1 true vs.vars
        (ini.initTensor dims vs.device w0).2 := fun _ => rfl
  have halloc : ∀ (w0 : World) (r : Nat),
      ((ini.initTensor dims vs.device w0).2).getMap r = w0.getMap r := fun _ _ => rfl
  cases hb : aget (w.getMap vs.vars.namedVariables) q with
  | some v =>
    refine ⟨v, (ini.initTensor dims vs.device w).2, v,
      (ini.initTensor dims vs.device (ini.initTensor dims vs.device w).2).2, ?_, ?_, rfl, ?_⟩
    · rw [horvar w]
      exact getOrAdd_found _ _ _ _ _ _ _ _ hq (by simp only [halloc]; exact hb)
    · rw [horvar]
      exact getOrAdd_found _ _ _ _ _ _ _ _ hq (by simp only [halloc]; exact hb)
    · unfold VarStore.Len
      simp only [halloc]
  | none =>
    obtain ⟨w1, hw1, hmap1⟩ :=
      getOrAdd_absent e.path e.name (ini.initTensor dims vs.device w).1 vs.vars
        (ini.initTensor dims vs.device w).2 q hq (by simp only [halloc]; exact hb)
    refine ⟨(ini.initTensor dims vs.device w).1, w1, (ini.initTensor dims vs.device w).1,
      (ini.initTensor dims vs.device w1).2, ?_, ?_, rfl, ?_⟩
    · rw [horvar w]
      exact hw1
    · rw [horvar w1]
      refine getOrAdd_found _ _ _ _ _ _ _ _ hq ?_
      simp only [halloc]
      rw [hmap1]
      exact aget_aset_self _ _ _
    · unfold VarStore.Len
      simp only [halloc]

/-- Witness for C2: a fresh store, entry `"w"`, two `OrVar` calls with the
zero initializer on shape `[2, 2]`. -/
theorem entry_get_or_create_idempotent_witness :
    containsSep "w" = false ∧
    (∃ t1 w1 t2 w2,
      (Path.Entry ⟨[]⟩ "w").OrVar [2, 2] (NewConstInit 0) c8start.1 c8start.2 = .ok (t1, w1) ∧
      (Path.Entry ⟨[]⟩ "w").OrVar [2, 2] (NewConstInit 0) c8start.1 w1 = .ok (t2, w2) ∧
      t2 = t1 ∧ c8start.1.Len w2 = c8start.1.Len w1) :=
  ⟨by decide,
   entry_get_or_create_idempotent (Path.Entry ⟨[]⟩ "w") [2, 2] (NewConstInit 0)
     c8start.1 c8start.2 (by decide)⟩

/-- C1: `getOrAddWithLock` is exactly an unsynchronized lookup step followed
by an insert step (the source acquires no lock in this function, and the
lock taken by `Path.Entry` is released before the entry is used), so two
concurrent callers of `OrZeros` on the same name can interleave as
lookup–lookup–insert–insert: both observe absence, two distinct variables
(distinct storage blocks) are created for the one name, the second insert
overwrites the first binding, and caller 1 is left holding a handle that
does not alias the registry's canonical storage — refuting "exactly one
variable is ever created and all callers observe handles that trace back to
the same canonical storage". -/
theorem getOrAdd_unsynchronized_race :
    (∀ (p : Path) (name : String) (t : Tensor) (trainable : Bool)
       (vars : Variables) (w : World),
      p.getOrAddWithLock name t trainable vars w =
        match getOrAddLookup p name vars w with
        | .fatal msg => .fatal msg
        | .ok (some v) => .ok (v, w)
        | .ok none => getOrAddInsert p name t trainable vars w) ∧
    getOrAddLookup c1entry.path c1entry.name c1vsw.1.vars c1w = .ok none ∧
    c1t1.storage ≠ c1t2.storage ∧
    aget (c1w2.getMap c1vsw.1.vars.namedVariables) "w" = some c1t2 ∧
    c1t1 ≠ c1t2 ∧
    (c1w2.getMap c1vsw.1.vars.namedVariables).length = 1 :=
  ⟨fun _ _ _ _ _ _ => rfl, by decide⟩

/-- C3: creating an absent trainable variable through `Entry.OrZeros` does
enable gradient tracking and does bind the name in the registry map, but the
new handle is NOT appended to the store's `TrainableVariables` sequence (the
append in `getOrAddWithLock` lands on the by-value `Variables` copy and is
lost), so the trainable snapshot stays empty — unlike the unconditional
insert `Path.add`, which does append. -/
theorem orvar_new_trainable_append_lost :
    gradAt c3w c3t = some true ∧
    aget (c3w.getMap c3vsw.1.vars.namedVariables) "w" = some c3t ∧
    c3vsw.1.vars.trainableVariables = [] ∧
    (c3vsw.1.TrainableVariables c3w).1 = [] ∧
    c3addState.1.vars.trainableVariables.length = 1 := by
  decide

/-- C4: with exactly one trainable variable, `TrainableVariables()` returns
a sequence of length two whose first element is the registry's live
canonical handle itself (the source initializes the result with the live
slice before appending clones) — refuting "exactly one shallow clone per
trainable variable and never the live handles".  `Variables()` does return
a clone (same storage, different handle). -/
theorem trainable_snapshot_contains_live_handles :
    c4state.1.vars.trainableVariables = [c4t] ∧
    aget (c4state.2.getMap c4state.1.vars.namedVariables) "w" = some c4t ∧
    c4snap.length = 2 ∧
    c4snap.head? = some c4t ∧
    c4clone.storage = c4t.storage ∧ c4clone ≠ c4t ∧
    c4varsnap.length = 1 ∧
    c4vclone.storage = c4t.storage ∧ c4vclone ≠ c4t := by
  decide

/-- C5: on a file containing only the subset `{"a"}` of the registry's names
`{"a", "b"}`, `LoadPartial` returns an empty missing list — not the
complement `["b"]` the claim (and the function's own doc comment) requires:
the loop collects file names absent from the registry instead of registry
names absent from the file.  The value updates themselves behave as claimed:
`"a"` is updated in place to the file values, `"b"` is unchanged, the name
set is unchanged and no copy is gradient-tracked. -/
theorem loadpartial_missing_list_empty :
    c5res.1 = [] ∧
    valuesAt c5res.2 c5ta = some [5] ∧
    valuesAt c5res.2 c5tb = some [1] ∧
    c5res.2.getMap c5sb.1.vars.namedVariables = c5sb.2.getMap c5sb.1.vars.namedVariables ∧
    c5res.2.trackedOps = c5sb.2.trackedOps := by
  decide

/-- Membership after insert-or-replace. -/
theorem mem_aset {α β : Type} [DecidableEq α] (l : List (α × β)) (k : α) (v : β)
    (p : α × β) (h : p ∈ aset l k v) : p ∈ l ∨ p = (k, v) := by
  induction l with
  | nil =>
    simp [aset] at h
    exact Or.inr h
  | cons hd rest ih =>
    by_cases h1 : k = hd.1
    · simp only [aset, h1] at h
      rcases List.mem_cons.1 h with h2 | h2
      · right
        rw [h2, h1]
      · exact Or.inl (List.mem_cons_of_mem _ h2)
    · simp only [aset, if_neg h1] at h
      rcases List.mem_cons.1 h with h2 | h2
      · exact Or.inl (h2 ▸ List.mem_cons_self _ _)
      · rcases ih h2 with h3 | h3
        · exact Or.inl (List.mem_cons_of_mem _ h3)
        · exact Or.inr h3

/-- `isSome` of a lookup survives insert-or-replace. -/
theorem aget_aset_isSome {α β : Type} [DecidableEq α] (l : List (α × β)) (k k' : α)
    (v : β) (h : (aget l k').isSome) : (aget (aset l k v) k').isSome := by
  by_cases h1 : k' = k
  · subst h1
    rw [aget_aset_self]
    rfl
  · rw [aget_aset_ne _ _ _ _ h1]
    exact h

/-- Two successful lookups at different keys in a storage-pairwise-distinct
registry map yield tensors with different storage ids. -/
theorem pairwise_storages_ne (m : List (String × Tensor))
    (hmp : List.Pairwise (fun a b => a.2.storage ≠ b.2.storage) m)
    (k1 k2 : String) (v1 v2 : Tensor) (h1 : aget m k1 = some v1)
    (h2 : aget m k2 = some v2) (hk : k1 ≠ k2) : v1.storage ≠ v2.storage := by
  induction m with
  | nil => simp [aget] at h1
  | cons hd rest ih =>
    have hhd := (List.pairwise_cons.1 hmp).1
    have hrest := (List.pairwise_cons.1 hmp).2
    by_cases e1 : k1 = hd.1
    · have hv1 : v1 = hd.2 := by
        simp [aget, e1] at h1
        exact h1.symm
      have e2 : ¬ k2 = hd.1 := fun hc => hk (e1.trans hc.symm)
      simp only [aget, if_neg e2] at h2
      exact hv1 ▸ hhd _ (aget_mem _ _ _ h2)
    · by_cases e2 : k2 = hd.1
      · have hv2 : v2 = hd.2 := by
          simp [aget, e2] at h2
          exact h2.symm
        simp only [aget, if_neg e1] at h1
        exact fun hc => hhd _ (aget_mem _ _ _ h1) (hv2 ▸ hc.symm)
      · simp only [aget, if_neg e1] at h1
        simp only [aget, if_neg e2] at h2
        exact ih hrest h1 h2

/-- A member of the left list of a `Forall₂` has a related member on the
right. -/
theorem forall₂_exists_right {α β : Type} {R : α → β → Prop} :
    ∀ {l1 : List α} {l2 : List β}, List.Forall₂ R l1 l2 → ∀ a ∈ l1, ∃ b ∈ l2, R a b := by
  intro l1 l2 h
  induction h with
  | nil => intro a ha; simp at ha
  | cons hR _ ih =>
    intro a ha
    rcases List.mem_cons.1 ha with h1 | h1
    · exact ⟨_, List.mem_cons_self _ _, h1 ▸ hR⟩
    · rcases ih a h1 with ⟨b, hb, hRb⟩
      exact ⟨b, List.mem_cons_of_mem _ hb, hRb⟩

/-- A member of the right list of a `Forall₂` has a related member on the
left. -/
theorem forall₂_exists_left {α β : Type} {R : α → β → Prop} :
    ∀ {l1 : List α} {l2 : List β}, List.Forall₂ R l1 l2 → ∀ b ∈ l2, ∃ a ∈ l1, R a b := by
  intro l1 l2 h
  induction h with
  | nil => intro b hb; simp at hb
  | cons hR _ ih =>
    intro b hb
    rcases List.mem_cons.1 hb with h1 | h1
    · exact ⟨_, List.mem_cons_self _ _, h1 ▸ hR⟩
    · rcases ih b h1 with ⟨a, ha, hRa⟩
      exact ⟨a, List.mem_cons_of_mem _ ha, hRa⟩

/-- One in-place copy between live tensors under `NoGrad`: the destination's
storage block gets the source's values; maps, counters, gradient mode and
the tracked-copy count are untouched. -/
theorem noGradCopy_live (d s : Tensor) (w : World) (dd ss : Storage)
    (hd : aget w.storages d.storage = some dd)
    (hs : aget w.storages s.storage = some ss) :
    NoGrad (fun w => Copy_ d s w) w =
      { w with storages := aset w.storages d.storage { dd with values := ss.values } } := by
  unfold NoGrad Copy_
  simp [hd, hs]

/-- Allocation preserves storage well-formedness. -/
theorem newTensor_wf (w : World) (dims vals : List Int) (g : Bool) (dev : Nat)
    (hwf : ∀ p ∈ w.storages, p.1 < w.nextStorage) :
    ∀ p ∈ ((w.newTensor dims vals g dev).2).storages,
      p.1 < ((w.newTensor dims vals g dev).2).nextStorage := by
  intro p hp
  simp only [World.newTensor] at hp ⊢
  rcases mem_aset _ _ _ _ hp with h | h
  · exact Nat.lt_succ_of_lt (hwf p h)
  · rw [h]
    exact Nat.lt_succ_self _

/-- Allocation does not change existing storage blocks. -/
theorem newTensor_preserves (w : World) (dims vals : List Int) (g : Bool) (dev sid : Nat)
    (h : sid ≠ w.nextStorage) :
    aget ((w.newTensor dims vals g dev).2).storages sid = aget w.storages sid := by
  simp only [World.newTensor]
  exact aget_aset_ne _ _ _ _ h

/-- Reading the freshly allocated block. -/
theorem newTensor_fresh (w : World) (dims vals : List Int) (g : Bool) (dev : Nat) :
    aget ((w.newTensor dims vals g dev).2).storages
      ((w.newTensor dims vals g dev).1).storage = some ⟨dims, vals, g, dev⟩ := by
  simp only [World.newTensor]
  exact aget_aset_self _ _ _

/-- Specification of the modelled deserializer: it touches no Go map, no
tracked-copy count and no existing storage block; it allocates one fresh
storage block (ids at or above the incoming `nextStorage`) per file pair,
holding exactly that pair's values with gradient tracking off; and it
preserves storage well-formedness. -/
theorem loadMulti_spec (file : List (String × List Int)) (device : Nat) :
    ∀ (w : World), (∀ p ∈ w.storages, p.1 < w.nextStorage) →
    (LoadMultiWithDevice file device w).2.maps = w.maps ∧
    (LoadMultiWithDevice file device w).2.trackedOps = w.trackedOps ∧
    (LoadMultiWithDevice file device w).2.gradMode = w.gradMode ∧
    w.nextStorage ≤ (LoadMultiWithDevice file device w).2.nextStorage ∧
    (∀ sid, sid < w.nextStorage →
      aget (LoadMultiWithDevice file device w).2.storages sid = aget w.storages sid) ∧
    (∀ p ∈ (LoadMultiWithDevice file device w).2.storages,
      p.1 < (LoadMultiWithDevice file device w).2.nextStorage) ∧
    List.Forall₂ (fun (p : String × List Int) (q : String × Tensor) =>
      q.1 = p.1 ∧ w.nextStorage ≤ q.2.storage ∧
      valuesAt (LoadMultiWithDevice file device w).2 q.2 = some p.2)
      file (LoadMultiWithDevice file device w).1 := by
  induction file with
  | nil =>
    intro w hwf
    exact ⟨rfl, rfl, rfl, Nat.le_refl _, fun _ _ => rfl, hwf, List.Forall₂.nil⟩
  | cons hd rest ih =>
    obtain ⟨name, vals⟩ := hd
    intro w hwf
    have hstep : LoadMultiWithDevice ((name, vals) :: rest) device w =
        ((name, (w.newTensor [Int.ofNat vals.length] vals false device).1) ::
            (LoadMultiWithDevice rest device
              (w.newTensor [Int.ofNat vals.length] vals false device).2).1,
         (LoadMultiWithDevice rest device
            (w.newTensor [Int.ofNat vals.length] vals false device).2).2) := rfl
    have hwf1 := newTensor_wf w [Int.ofNat vals.length] vals false device hwf
    obtain ⟨m1, m2, m3, m4, m5, m6, m7⟩ :=
      ih ((w.newTensor [Int.ofNat vals.length] vals false device).2) hwf1
    rw [hstep]
    refine ⟨m1, m2, m3, Nat.le_trans (Nat.le_succ _) m4, ?_, m6, ?_⟩
    · intro sid hsid
      have h1 := m5 sid (Nat.lt_succ_of_lt hsid)
      rw [h1]
      exact newTensor_preserves w _ vals false device sid (Nat.ne_of_lt hsid)
    · refine List.Forall₂.cons ⟨rfl, Nat.le_refl _, ?_⟩ (m7.imp ?_)
      · have h2 := m5 w.nextStorage (Nat.lt_succ_self w.nextStorage)
        have h3 : aget ((w.newTensor [Int.ofNat vals.length] vals false device).2).storages
            w.nextStorage = some ⟨[Int.ofNat vals.length], vals, false, device⟩ :=
          newTensor_fresh w [Int.ofNat vals.length] vals false device
        show (aget (LoadMultiWithDevice rest device
            (w.newTensor [Int.ofNat vals.length] vals false device).2).2.storages
            w.nextStorage).map Storage.values = some vals
        rw [h2, h3]
        rfl
      · intro p q hp
        exact ⟨hp.1, Nat.le_trans (Nat.le_succ _) hp.2.1, hp.2.2⟩

/-- Specification of the `Load` loop over a registry map `m` whose handles
are live with pairwise-distinct storages, fed loaded tensors that are live,
disjoint from the registry storages and carry pairwise-distinct names: it
touches no Go map and no tracked-copy count, succeeds exactly when every
loaded name is bound in `m`, leaves storages outside the registry targets
unchanged, and on success overwrites each target's values (keeping its
shape, gradient flag and device) with the loaded values. -/
theorem loadLoop_spec (l : List (String × Tensor)) (m : List (String × Tensor)) :
    ∀ (w : World),
    (∀ p ∈ m, (aget w.storages p.2.storage).isSome) →
    List.Pairwise (fun a b => a.2.storage ≠ b.2.storage) m →
    (∀ p ∈ l, ∀ q ∈ m, p.2.storage ≠ q.2.storage) →
    (l.map Prod.fst).Nodup →
    (∀ p ∈ l, (aget w.storages p.2.storage).isSome) →
    (loadLoop l m w).2.maps = w.maps ∧
    (loadLoop l m w).2.trackedOps = w.trackedOps ∧
    (loadLoop l m w).2.gradMode = w.gradMode ∧
    ((loadLoop l m w).1 = .ok () ↔ ∀ p ∈ l, (aget m p.1).isSome) ∧
    (∀ sid, sid ∉ loadTargets l m →
      aget (loadLoop l m w).2.storages sid = aget w.storages sid) ∧
    ((loadLoop l m w).1 = .ok () →
      ∀ p ∈ l, ∀ tr, aget m p.1 = some tr → ∀ vals, valuesAt w p.2 = some vals →
        ∃ st, aget w.storages tr.storage = some st ∧
          aget (loadLoop l m w).2.storages tr.storage = some { st with values := vals }) := by
  induction l with
  | nil =>
    intro w _ _ _ _ _
    refine ⟨rfl, rfl, rfl, ?_, fun _ _ => rfl, ?_⟩
    · exact ⟨fun _ p hp => absurd hp (List.not_mem_nil p), fun _ => rfl⟩
    · intro _ p hp
      exact absurd hp (List.not_mem_nil p)
  | cons hd rest ih =>
    obtain ⟨name, t⟩ := hd
    intro w hml hmp hdisj hnod hll
    cases h : aget m name with
    | none =>
      have hstep : loadLoop ((name, t) :: rest) m w =
          (.error ("Cannot find tensor with name: " ++ name ++ " in variable store. "), w) := by
        unfold loadLoop
        rw [h]
      rw [hstep]
      refine ⟨rfl, rfl, rfl, ?_, fun _ _ => rfl, ?_⟩
      · constructor
        · intro hc
          exact absurd hc (by simp)
        · intro hall
          have h1 := hall (name, t) (List.mem_cons_self _ _)
          rw [h] at h1
          exact absurd h1 (by simp)
      · intro hc
        exact absurd hc (by simp)
    | some tr =>
      have htrm : (name, tr) ∈ m := aget_mem m name tr h
      obtain ⟨st, hst⟩ := Option.isSome_iff_exists.mp (hml (name, tr) htrm)
      obtain ⟨ts, hts⟩ := Option.isSome_iff_exists.mp (hll (name, t) (List.mem_cons_self _ _))
      have hw2 := noGradCopy_live tr t w st ts hst hts
      have hstep1 : loadLoop ((name, t) :: rest) m w =
          loadLoop rest m (NoGrad (fun w0 => Copy_ tr t w0) w) := by
        simp only [loadLoop]
        rw [h]
      have hstep : loadLoop ((name, t) :: rest) m w =
          loadLoop rest m
            { w with storages := aset w.storages tr.storage { st with values := ts.values } } := by
        rw [hstep1, hw2]
      have hnodc : name ∉ rest.map Prod.fst ∧ (rest.map Prod.fst).Nodup := by
        rw [List.map_cons] at hnod
        exact List.nodup_cons.1 hnod
      have hml2 : ∀ p ∈ m,
          (aget (aset w.storages tr.storage { st with values := ts.values }) p.2.storage).isSome :=
        fun p hp => aget_aset_isSome _ _ _ _ (hml p hp)
      have hdisj2 : ∀ p ∈ rest, ∀ q ∈ m, p.2.storage ≠ q.2.storage :=
        fun p hp q hq => hdisj p (List.mem_cons_of_mem _ hp) q hq
      have hll2 : ∀ p ∈ rest,
          (aget (aset w.storages tr.storage { st with values := ts.values }) p.2.storage).isSome := by
        intro p hp
        rw [aget_aset_ne _ _ _ _ (hdisj p (List.mem_cons_of_mem _ hp) (name, tr) htrm)]
        exact hll p (List.mem_cons_of_mem _ hp)
      obtain ⟨i1, i2, i3, i4, i5, i6⟩ :=
        ih { w with storages := aset w.storages tr.storage { st with values := ts.values } }
          hml2 hmp hdisj2 hnodc.2 hll2
      have hlt : loadTargets ((name, t) :: rest) m = tr.storage :: loadTargets rest m := by
        simp [loadTargets, h]
      have hname_ne : ∀ p ∈ rest, p.1 ≠ name := by
        intro p hp hc
        exact hnodc.1 (hc ▸ List.mem_map_of_mem Prod.fst hp)
      have htr_not_rest : tr.storage ∉ loadTargets rest m := by
        intro hc
        obtain ⟨p, hp, hpeq⟩ := List.mem_filterMap.1 hc
        obtain ⟨q', hq', hqs⟩ : ∃ q', aget m p.1 = some q' ∧ q'.storage = tr.storage := by
          cases hq : aget m p.1 with
          | none => rw [hq] at hpeq; exact absurd hpeq (by simp)
          | some q' =>
            rw [hq] at hpeq
            exact ⟨q', rfl, by simpa using hpeq⟩
        exact pairwise_storages_ne m hmp p.1 name q' tr hq' h (hname_ne p hp) hqs
      rw [hstep]
      refine ⟨i1, i2, i3, ?_, ?_, ?_⟩
      · constructor
        · intro hok p hp
          rcases List.mem_cons.1 hp with h1 | h1
          · rw [h1, h]
            rfl
          · exact i4.1 hok p h1
        · intro hall
          exact i4.2 fun p hp => hall p (List.mem_cons_of_mem _ hp)
      · intro sid hsid
        rw [hlt] at hsid
        have hs1 : sid ≠ tr.storage := fun hc => hsid (hc ▸ List.mem_cons_self _ _)
        have hs2 : sid ∉ loadTargets rest m := fun hc => hsid (List.mem_cons_of_mem _ hc)
        rw [i5 sid hs2]
        exact aget_aset_ne _ _ _ _ hs1
      · intro hok p hp tr' htr' vals hvals
        rcases List.mem_cons.1 hp with h1 | h1
        · have htr'eq : tr' = tr := by
            rw [h1] at htr'
            rw [h] at htr'
            exact (Option.some.inj htr').symm
          have hvals' : ts.values = vals := by
            rw [h1] at hvals
            unfold valuesAt storageAt at hvals
            rw [hts] at hvals
            simpa using hvals
          refine ⟨st, htr'eq ▸ hst, ?_⟩
          rw [htr'eq, i5 tr.storage htr_not_rest, aget_aset_self, hvals']
        · have hps_ne : tr'.storage ≠ tr.storage :=
            pairwise_storages_ne m hmp p.1 name tr' tr htr' h (hname_ne p h1)
          have hvals2 : valuesAt
              { w with storages := aset w.storages tr.storage { st with values := ts.values } }
              p.2 = some vals := by
            unfold valuesAt storageAt
            rw [aget_aset_ne _ _ _ _ (hdisj p hp (name, tr) htrm)]
            exact hvals
          obtain ⟨st', h1', h2'⟩ := i6 hok p h1 tr' htr' vals hvals2
          refine ⟨st', ?_, h2'⟩
          rw [← h1']
          exact (aget_aset_ne _ _ _ _ hps_ne).symm

/-- Mapping both sides of a `Forall₂` with functions the relation equates. -/
theorem forall₂_map_eq {α β γ : Type} (f : α → γ) (g : β → γ) {R : α → β → Prop}
    (hR : ∀ a b, R a b → g b = f a) :
    ∀ {l1 : List α} {l2 : List β}, List.Forall₂ R l1 l2 → l2.map g = l1.map f := by
  intro l1 l2 h
  induction h with
  | nil => rfl
  | cons hab _ ih => simp [List.map_cons, ih, hR _ _ hab]

/-- C7: `Load` succeeds exactly when every name deserialized from the file
is bound in the registry (otherwise the "cannot find tensor" error is
returned); in every case no Go map changes (`Load` adds and removes no
names) and no copy is gradient-tracked; on success every deserialized
pair's values are copied in place into the existing handle's storage block,
which keeps its shape, gradient flag and device. -/
theorem load_error_iff_missing (vs : VarStore) (file : List (String × List Int)) (w : World)
    (hwf : ∀ p ∈ w.storages, p.1 < w.nextStorage)
    (hml : ∀ p ∈ w.getMap vs.vars.namedVariables, (aget w.storages p.2.storage).isSome)
    (hmp : List.Pairwise (fun a b => a.2.storage ≠ b.2.storage)
      (w.getMap vs.vars.namedVariables))
    (hfile : (file.map Prod.fst).Nodup) :
    (vs.Load file w).2.maps = w.maps ∧
    (vs.Load file w).2.trackedOps = w.trackedOps ∧
    ((vs.Load file w).1 = .ok () ↔
      ∀ p ∈ file, (aget (w.getMap vs.vars.namedVariables) p.1).isSome) ∧
    ((vs.Load file w).1 = .ok () →
      ∀ p ∈ file, ∀ tr, aget (w.getMap vs.vars.namedVariables) p.1 = some tr →
        ∃ st, aget w.storages tr.storage = some st ∧
          aget (vs.Load file w).2.storages tr.storage = some { st with values := p.2 }) := by
  obtain ⟨l1, l2, l3, l4, l5, l6, l7⟩ := loadMulti_spec file vs.device w hwf
  have hm : ((LoadMultiWithDevice file vs.device w).2).getMap vs.vars.namedVariables =
      w.getMap vs.vars.namedVariables := by
    unfold World.getMap
    rw [l1]
  have hstep : vs.Load file w =
      loadLoop (LoadMultiWithDevice file vs.device w).1
        (((LoadMultiWithDevice file vs.device w).2).getMap vs.vars.namedVariables)
        (LoadMultiWithDevice file vs.device w).2 := rfl
  rw [hm] at hstep
  have hlt : ∀ p ∈ w.getMap vs.vars.namedVariables, p.2.storage < w.nextStorage := by
    intro p hp
    obtain ⟨st, hst⟩ := Option.isSome_iff_exists.mp (hml p hp)
    exact hwf _ (aget_mem _ _ _ hst)
  have hml1 : ∀ p ∈ w.getMap vs.vars.namedVariables,
      (aget ((LoadMultiWithDevice file vs.device w).2).storages p.2.storage).isSome := by
    intro p hp
    rw [l5 p.2.storage (hlt p hp)]
    exact hml p hp
  have hdisjl : ∀ p ∈ (LoadMultiWithDevice file vs.device w).1,
      ∀ q ∈ w.getMap vs.vars.namedVariables, p.2.storage ≠ q.2.storage := by
    intro p hp q hq
    obtain ⟨a, _, hrel⟩ := forall₂_exists_left l7 p hp
    exact (Nat.ne_of_lt (Nat.lt_of_lt_of_le (hlt q hq) hrel.2.1)).symm
  have hmapeq : ((LoadMultiWithDevice file vs.device w).1).map Prod.fst = file.map Prod.fst :=
    forall₂_map_eq Prod.fst Prod.fst (fun _ _ hr => hr.1) l7
  have hnodnts : (((LoadMultiWithDevice file vs.device w).1).map Prod.fst).Nodup := by
    rw [hmapeq]
    exact hfile
  have hllnts : ∀ p ∈ (LoadMultiWithDevice file vs.device w).1,
      (aget ((LoadMultiWithDevice file vs.device w).2).storages p.2.storage).isSome := by
    intro p hp
    obtain ⟨a, _, hrel⟩ := forall₂_exists_left l7 p hp
    have hv := hrel.2.2
    unfold valuesAt storageAt at hv
    cases hh : aget ((LoadMultiWithDevice file vs.device w).2).storages p.2.storage with
    | none => rw [hh] at hv; exact absurd hv (by simp)
    | some _ => rfl
  obtain ⟨o1, o2, _, o4, _, o6⟩ :=
    loadLoop_spec (LoadMultiWithDevice file vs.device w).1 (w.getMap vs.vars.namedVariables)
      (LoadMultiWithDevice file vs.device w).2 hml1 hmp hdisjl hnodnts hllnts
  have hiff : (∀ p ∈ (LoadMultiWithDevice file vs.device w).1,
      (aget (w.getMap vs.vars.namedVariables) p.1).isSome) ↔
      ∀ p ∈ file, (aget (w.getMap vs.vars.namedVariables) p.1).isSome := by
    constructor
    · intro hA p hp
      obtain ⟨b, hb, hrel⟩ := forall₂_exists_right l7 p hp
      have hx := hA b hb
      rw [hrel.1] at hx
      exact hx
    · intro hA q hq
      obtain ⟨a, ha, hrel⟩ := forall₂_exists_left l7 q hq
      rw [hrel.1]
      exact hA a ha
  refine ⟨?_, ?_, ?_, ?_⟩
  · rw [hstep, o1]
    exact l1
  · rw [hstep, o2]
    exact l2
  · rw [hstep]
    exact o4.trans hiff
  · intro hok p hp tr htr
    rw [hstep] at hok
    obtain ⟨q, hq, hrel⟩ := forall₂_exists_right l7 p hp
    obtain ⟨st, hst1, hst2⟩ :=
      o6 hok q hq tr (by rw [hrel.1]; exact htr) p.2 hrel.2.2
    have htrlt : tr.storage < w.nextStorage := hlt (p.1, tr) (aget_mem _ _ _ htr)
    refine ⟨st, ?_, ?_⟩
    · rw [← l5 tr.storage htrlt]
      exact hst1
    · rw [hstep]
      exact hst2

/-- Witness for C7: registry `{"a" ↦ [0], "b" ↦ [1]}`, file
`[("a", [7]), ("b", [9])]`. -/
theorem load_error_iff_missing_witness :
    (∀ p ∈ c5sb.2.storages, p.1 < c5sb.2.nextStorage) ∧
    (∀ p ∈ c5sb.2.getMap c5sb.1.vars.namedVariables,
      (aget c5sb.2.storages p.2.storage).isSome) ∧
    List.Pairwise (fun a b => a.2.storage ≠ b.2.storage)
      (c5sb.2.getMap c5sb.1.vars.namedVariables) ∧
    ((c7file.map Prod.fst).Nodup) ∧
    ((c5sb.1.Load c7file c5sb.2).2.maps = c5sb.2.maps ∧
     (c5sb.1.Load c7file c5sb.2).2.trackedOps = c5sb.2.trackedOps ∧
     ((c5sb.1.Load c7file c5sb.2).1 = .ok () ↔
       ∀ p ∈ c7file,
         (aget (c5sb.2.getMap c5sb.1.vars.namedVariables) p.1).isSome) ∧
     ((c5sb.1.Load c7file c5sb.2).1 = .ok () →
       ∀ p ∈ c7file, ∀ tr,
         aget (c5sb.2.getMap c5sb.1.vars.namedVariables) p.1 = some tr →
         ∃ st, aget c5sb.2.storages tr.storage = some st ∧
           aget (c5sb.1.Load c7file c5sb.2).2.storages tr.storage =
             some { st with values := p.2 })) :=
  by
  refine ⟨by decide, by decide, by decide, by decide, ?_⟩
  exact load_error_iff_missing c5sb.1 c7file
    c5sb.2 (by decide) (by decide) (by decide) (by decide)

/-- Validation loop of `Copy`: it reports nothing exactly when every
destination name is bound in the source map. -/
theorem copyValidate_none_iff (l srcMap : List (String × Tensor)) :
    copyValidate l srcMap = none ↔ ∀ p ∈ l, (aget srcMap p.1).isSome := by
  induction l with
  | nil => simp [copyValidate]
  | cons hd rest ih =>
    obtain ⟨k, v⟩ := hd
    by_cases h : (aget srcMap k).isSome
    · simp [copyValidate, h, ih]
    · simp [copyValidate, h]

/-- One step of the `Copy` loop (device move followed by an in-place copy
under `NoGrad`), between live tensors with distinct storages: maps, the
tracked-copy count and the gradient mode are unchanged, storages below the
old allocation frontier other than the destination's are unchanged, the
destination's block receives the source's values, and well-formedness is
preserved. -/
theorem copyStep_spec (v q : Tensor) (device : Nat) (w : World) (vst qst : Storage)
    (hv : aget w.storages v.storage = some vst)
    (hq : aget w.storages q.storage = some qst)
    (hvlt : v.storage < w.nextStorage)
    (hwf : ∀ p ∈ w.storages, p.1 < w.nextStorage) :
    ((NoGrad (fun w0 => Copy_ v ((q.to device w).1) w0) ((q.to device w).2)).maps = w.maps ∧
     (NoGrad (fun w0 => Copy_ v ((q.to device w).1) w0) ((q.to device w).2)).trackedOps =
       w.trackedOps ∧
     (NoGrad (fun w0 => Copy_ v ((q.to device w).1) w0) ((q.to device w).2)).gradMode =
       w.gradMode) ∧
    w.nextStorage ≤ (NoGrad (fun w0 => Copy_ v ((q.to device w).1) w0) ((q.to device w).2)).nextStorage ∧
    (∀ sid, sid < w.nextStorage → sid ≠ v.storage →
      aget (NoGrad (fun w0 => Copy_ v ((q.to device w).1) w0) ((q.to device w).2)).storages sid =
        aget w.storages sid) ∧
    aget (NoGrad (fun w0 => Copy_ v ((q.to device w).1) w0) ((q.to device w).2)).storages
      v.storage = some { vst with values := qst.values } ∧
    (∀ p ∈ (NoGrad (fun w0 => Copy_ v ((q.to device w).1) w0) ((q.to device w).2)).storages,
      p.1 < (NoGrad (fun w0 => Copy_ v ((q.to device w).1) w0) ((q.to device w).2)).nextStorage) := by
  by_cases hdev : qst.device = device
  · have hto : q.to device w = (q, w) := by
      simp only [Tensor.to, hq]
      rw [if_pos hdev]
    rw [hto]
    have hcopy := noGradCopy_live v q w vst qst hv hq
    rw [hcopy]
    refine ⟨⟨rfl, rfl, rfl⟩, Nat.le_refl _, ?_, ?_, ?_⟩
    · intro sid _ hsne
      exact aget_aset_ne _ _ _ _ hsne
    · exact aget_aset_self _ _ _
    · intro p hp
      rcases mem_aset _ _ _ _ hp with h1 | h1
      · exact hwf p h1
      · rw [h1]
        exact hvlt
  · have hto : q.to device w = w.newTensor qst.dims qst.values qst.requiresGrad device := by
      simp only [Tensor.to, hq]
      rw [if_neg hdev]
    rw [hto]
    have hvA : aget ((w.newTensor qst.dims qst.values qst.requiresGrad device).2).storages
        v.storage = some vst := by
      rw [newTensor_preserves w _ _ _ _ _ (Nat.ne_of_lt hvlt)]
      exact hv
    have hfresh := newTensor_fresh w qst.dims qst.values qst.requiresGrad device
    have hcopy := noGradCopy_live _ _ _ vst ⟨qst.dims, qst.values, qst.requiresGrad, device⟩
      hvA hfresh
    rw [hcopy]
    have hwfA := newTensor_wf w qst.dims qst.values qst.requiresGrad device hwf
    refine ⟨⟨rfl, rfl, rfl⟩, Nat.le_succ _, ?_, ?_, ?_⟩
    · intro sid hslt hsne
      rw [aget_aset_ne _ _ _ _ hsne]
      exact newTensor_preserves w _ _ _ _ _ (Nat.ne_of_lt hslt)
    · exact aget_aset_self _ _ _
    · intro p hp
      rcases mem_aset _ _ _ _ hp with h1 | h1
      · exact hwfA p h1
      · rw [h1]
        exact Nat.lt_succ_of_lt hvlt

/-- Specification of the `Copy` loop over a well-formed world, live
destination entries with pairwise-distinct storages, a live source map
disjoint from the destination storages, and full name matching: it touches
no Go map, no tracked-copy count and no gradient mode, leaves storages
outside the destination set unchanged, and writes each source's values into
the identically named destination's storage block in place. -/
theorem copyLoop_spec (srcMap : List (String × Tensor)) (device : Nat) :
    ∀ (l : List (String × Tensor)) (w : World),
    (∀ p ∈ w.storages, p.1 < w.nextStorage) →
    (∀ p ∈ l, (aget w.storages p.2.storage).isSome) →
    (∀ q ∈ srcMap, (aget w.storages q.2.storage).isSome) →
    (∀ p ∈ l, ∀ q ∈ srcMap, p.2.storage ≠ q.2.storage) →
    List.Pairwise (fun a b => a.2.storage ≠ b.2.storage) l →
    (∀ p ∈ l, (aget srcMap p.1).isSome) →
    (copyLoop l srcMap device w).maps = w.maps ∧
    (copyLoop l srcMap device w).trackedOps = w.trackedOps ∧
    (copyLoop l srcMap device w).gradMode = w.gradMode ∧
    w.nextStorage ≤ (copyLoop l srcMap device w).nextStorage ∧
    (∀ sid, sid < w.nextStorage → sid ∉ l.map (fun p => p.2.storage) →
      aget (copyLoop l srcMap device w).storages sid = aget w.storages sid) ∧
    (∀ p ∈ l, ∀ q, aget srcMap p.1 = some q → ∀ svals, valuesAt w q = some svals →
      ∃ st, aget w.storages p.2.storage = some st ∧
        aget (copyLoop l srcMap device w).storages p.2.storage =
          some { st with values := svals }) := by
  intro l
  induction l with
  | nil =>
    intro w hwf _ _ _ _ _
    exact ⟨rfl, rfl, rfl, Nat.le_refl _, fun _ _ _ => rfl,
      fun p hp => absurd hp (List.not_mem_nil p)⟩
  | cons hd rest ih =>
    obtain ⟨k, v⟩ := hd
    intro w hwf hlive hsl hdisj hpair hmatch
    obtain ⟨q, hq⟩ := Option.isSome_iff_exists.mp (hmatch (k, v) (List.mem_cons_self _ _))
    obtain ⟨qst, hqst⟩ := Option.isSome_iff_exists.mp (hsl (k, q) (aget_mem _ _ _ hq))
    obtain ⟨vst, hvst⟩ := Option.isSome_iff_exists.mp (hlive (k, v) (List.mem_cons_self _ _))
    have hvlt : v.storage < w.nextStorage := hwf _ (aget_mem _ _ _ hvst)
    have hstep : copyLoop ((k, v) :: rest) srcMap device w =
        copyLoop rest srcMap device
          (NoGrad (fun w0 => Copy_ v ((q.to device w).1) w0) ((q.to device w).2)) := by
      simp only [copyLoop, hq, Option.getD_some]
    obtain ⟨⟨a1, a2, a3⟩, b, c, d, e⟩ := copyStep_spec v q device w vst qst hvst hqst hvlt hwf
    set W2 := NoGrad (fun w0 => Copy_ v ((q.to device w).1) w0) ((q.to device w).2) with hW2
    have hpairhead := (List.pairwise_cons.1 hpair).1
    have hpairrest := (List.pairwise_cons.1 hpair).2
    have hlive2 : ∀ p ∈ rest, (aget W2.storages p.2.storage).isSome := by
      intro p hp
      have hplt : p.2.storage < w.nextStorage := by
        obtain ⟨pst, hpst⟩ :=
          Option.isSome_iff_exists.mp (hlive p (List.mem_cons_of_mem _ hp))
        exact hwf _ (aget_mem _ _ _ hpst)
      rw [c p.2.storage hplt (Ne.symm (hpairhead p hp))]
      exact hlive p (List.mem_cons_of_mem _ hp)
    have hsl2 : ∀ q' ∈ srcMap, (aget W2.storages q'.2.storage).isSome := by
      intro q' hq'
      have hqlt : q'.2.storage < w.nextStorage := by
        obtain ⟨qs, hqs⟩ := Option.isSome_iff_exists.mp (hsl q' hq')
        exact hwf _ (aget_mem _ _ _ hqs)
      rw [c _ hqlt (Ne.symm (hdisj (k, v) (List.mem_cons_self _ _) q' hq'))]
      exact hsl q' hq'
    have hdisj2 : ∀ p ∈ rest, ∀ q' ∈ srcMap, p.2.storage ≠ q'.2.storage :=
      fun p hp q' hq' => hdisj p (List.mem_cons_of_mem _ hp) q' hq'
    have hmatch2 : ∀ p ∈ rest, (aget srcMap p.1).isSome :=
      fun p hp => hmatch p (List.mem_cons_of_mem _ hp)
    obtain ⟨i1, i2, i3, i4, i5, i6⟩ := ih W2 e hlive2 hsl2 hdisj2 hpairrest hmatch2
    rw [hstep]
    refine ⟨?_, ?_, ?_, ?_, ?_, ?_⟩
    · rw [i1]
      exact a1
    · rw [i2]
      exact a2
    · rw [i3]
      exact a3
    · exact Nat.le_trans b i4
    · intro sid hslt hsnot
      rw [List.map_cons] at hsnot
      have hs1 : sid ≠ v.storage := fun hc => hsnot (hc ▸ List.mem_cons_self _ _)
      have hs2 : sid ∉ rest.map (fun p => p.2.storage) :=
        fun hc => hsnot (List.mem_cons_of_mem _ hc)
      rw [i5 sid (Nat.lt_of_lt_of_le hslt b) hs2]
      exact c sid hslt hs1
    · intro p hp q' hq' svals hsvals
      rcases List.mem_cons.1 hp with h1 | h1
      · have hq'q : q' = q := by
          rw [h1] at hq'
          rw [hq] at hq'
          exact (Option.some.inj hq').symm
        have hqvals : qst.values = svals := by
          rw [hq'q] at hsvals
          unfold valuesAt storageAt at hsvals
          rw [hqst] at hsvals
          simpa using hsvals
        have hvnotrest : v.storage ∉ rest.map (fun p => p.2.storage) := by
          intro hc
          obtain ⟨p', hp', hps⟩ := List.mem_map.1 hc
          exact hpairhead p' hp' hps.symm
        rw [h1]
        refine ⟨vst, hvst, ?_⟩
        rw [i5 v.storage (Nat.lt_of_lt_of_le hvlt b) hvnotrest, d, hqvals]
      · have hplt : p.2.storage < w.nextStorage := by
          obtain ⟨pst, hpst⟩ :=
            Option.isSome_iff_exists.mp (hlive p (List.mem_cons_of_mem _ h1))
          exact hwf _ (aget_mem _ _ _ hpst)
        have hpne : p.2.storage ≠ v.storage := Ne.symm (hpairhead p h1)
        have hq'lt : q'.storage < w.nextStorage := by
          obtain ⟨qs, hqs⟩ :=
            Option.isSome_iff_exists.mp (hsl (p.1, q') (aget_mem _ _ _ hq'))
          exact hwf _ (aget_mem _ _ _ hqs)
        have hq'ne : q'.storage ≠ v.storage :=
          Ne.symm (hdisj (k, v) (List.mem_cons_self _ _) (p.1, q') (aget_mem _ _ _ hq'))
        have hsvals2 : valuesAt W2 q' = some svals := by
          unfold valuesAt storageAt
          rw [c q'.storage hq'lt hq'ne]
          exact hsvals
        obtain ⟨st, hst1, hst2⟩ := i6 p h1 q' hq' svals hsvals2
        refine ⟨st, ?_, hst2⟩
        rw [← hst1]
        exact (c p.2.storage hplt hpne).symm

/-- C6: `Copy` pre-validates — whenever some name bound in the destination
registry is absent from the source registry it returns the "cannot find in
the source var store" error with the world (both registries and every
tensor) completely untouched; when the source's name set covers the
destination's it succeeds, changes no Go map and no tracked-copy count, and
copies each source value (moved to the destination's device) in place into
the destination's identically named handle, whose storage block keeps its
gradient flag, shape and device. -/
theorem copy_validates_then_updates (vs src : VarStore) (w : World)
    (hwf : ∀ p ∈ w.storages, p.1 < w.nextStorage)
    (hdl : ∀ p ∈ w.getMap vs.vars.namedVariables, (aget w.storages p.2.storage).isSome)
    (hsl : ∀ q ∈ w.getMap src.vars.namedVariables, (aget w.storages q.2.storage).isSome)
    (hdisj : ∀ p ∈ w.getMap vs.vars.namedVariables,
      ∀ q ∈ w.getMap src.vars.namedVariables, p.2.storage ≠ q.2.storage)
    (hpair : List.Pairwise (fun a b => a.2.storage ≠ b.2.storage)
      (w.getMap vs.vars.namedVariables)) :
    ((∃ p ∈ w.getMap vs.vars.namedVariables,
        aget (w.getMap src.vars.namedVariables) p.1 = none) →
      ∃ msg, vs.Copy src w = (.error msg, w)) ∧
    ((∀ p ∈ w.getMap vs.vars.namedVariables,
        (aget (w.getMap src.vars.namedVariables) p.1).isSome) →
      (vs.Copy src w).1 = .ok () ∧
      (vs.Copy src w).2.maps = w.maps ∧
      (vs.Copy src w).2.trackedOps = w.trackedOps ∧
      (∀ p ∈ w.getMap vs.vars.namedVariables, ∀ q,
        aget (w.getMap src.vars.namedVariables) p.1 = some q →
        ∀ svals, valuesAt w q = some svals →
          ∃ st, aget w.storages p.2.storage = some st ∧
            aget (vs.Copy src w).2.storages p.2.storage =
              some { st with values := svals })) := by
  constructor
  · rintro ⟨p, hp, hmiss⟩
    cases hv : copyValidate (w.getMap vs.vars.namedVariables)
        (w.getMap src.vars.namedVariables) with
    | none =>
      have hall := (copyValidate_none_iff _ _).1 hv p hp
      rw [hmiss] at hall
      exact absurd hall (by simp)
    | some k =>
      refine ⟨"VarStore copy error: cannot find " ++ k ++ " in the source var store. ", ?_⟩
      simp only [VarStore.Copy, hv]
  · intro hall
    have hv : copyValidate (w.getMap vs.vars.namedVariables)
        (w.getMap src.vars.namedVariables) = none := (copyValidate_none_iff _ _).2 hall
    have hC : vs.Copy src w =
        (.ok (), copyLoop (w.getMap vs.vars.namedVariables)
          (w.getMap src.vars.namedVariables) vs.device w) := by
      simp only [VarStore.Copy, hv]
    obtain ⟨o1, o2, _, _, _, o6⟩ :=
      copyLoop_spec (w.getMap src.vars.namedVariables) vs.device
        (w.getMap vs.vars.namedVariables) w hwf hdl hsl hdisj hpair hall
    rw [hC]
    exact ⟨rfl, o1, o2, fun p hp q hq svals hsv => o6 p hp q hq svals hsv⟩

/-- Witness for C6: destination `{"a" ↦ [0]}`, source `{"a" ↦ [1]}`, both
in the world `c6s1.2`. -/
theorem copy_validates_then_updates_witness :
    (∀ p ∈ c6s1.2.storages, p.1 < c6s1.2.nextStorage) ∧
    (∀ p ∈ c6s1.2.getMap c6d1.1.vars.namedVariables,
      (aget c6s1.2.storages p.2.storage).isSome) ∧
    (∀ q ∈ c6s1.2.getMap c6s1.1.vars.namedVariables,
      (aget c6s1.2.storages q.2.storage).isSome) ∧
    (∀ p ∈ c6s1.2.getMap c6d1.1.vars.namedVariables,
      ∀ q ∈ c6s1.2.getMap c6s1.1.vars.namedVariables, p.2.storage ≠ q.2.storage) ∧
    List.Pairwise (fun a b => a.2.storage ≠ b.2.storage)
      (c6s1.2.getMap c6d1.1.vars.namedVariables) ∧
    (((∃ p ∈ c6s1.2.getMap c6d1.1.vars.namedVariables,
        aget (c6s1.2.getMap c6s1.1.vars.namedVariables) p.1 = none) →
      ∃ msg, c6d1.1.Copy c6s1.1 c6s1.2 = (.error msg, c6s1.2)) ∧
     ((∀ p ∈ c6s1.2.getMap c6d1.1.vars.namedVariables,
        (aget (c6s1.2.getMap c6s1.1.vars.namedVariables) p.1).isSome) →
      (c6d1.1.Copy c6s1.1 c6s1.2).1 = .ok () ∧
      (c6d1.1.Copy c6s1.1 c6s1.2).2.maps = c6s1.2.maps ∧
      (c6d1.1.Copy c6s1.1 c6s1.2).2.trackedOps = c6s1.2.trackedOps ∧
      (∀ p ∈ c6s1.2.getMap c6d1.1.vars.namedVariables, ∀ q,
        aget (c6s1.2.getMap c6s1.1.vars.namedVariables) p.1 = some q →
        ∀ svals, valuesAt c6s1.2 q = some svals →
          ∃ st, aget c6s1.2.storages p.2.storage = some st ∧
            aget (c6d1.1.Copy c6s1.1 c6s1.2).2.storages p.2.storage =
              some { st with values := svals }))) :=
  ⟨by decide, by decide, by decide, by decide, by decide,
   copy_validates_then_updates c6d1.1 c6s1.1 c6s1.2
     (by decide) (by decide) (by decide) (by decide) (by decide)⟩

end Gotch
